import Mathlib

/-!
Shallow embedding of the editorial decision / range-coalescing pipeline of the
Videoeditor repository (TypeScript).  JavaScript numbers are modelled as
rationals; `Array.prototype.sort` (stable since ES2019) is modelled by the
stable `List.insertionSort`; a throwing function is modelled in the
`Except String` monad.  Field `end` of `TimeRange` is renamed `stop`
(`end` is a Lean keyword).
-/

/-- TimeRange (src `TimeRange.ts`): a segment of video to keep.  `stop`
embeds the source field `end`. -/
structure TimeRange where
  start : ℚ
  stop : ℚ
  priority : ℚ
  label : Option String
deriving DecidableEq, Repr

/-- createTimeRange (src `TimeRange.ts`): construction with validation;
`throw` is modelled as `Except.error`. -/
def createTimeRange (start stop : ℚ) (priority : ℚ) (label : Option String) :
    Except String TimeRange :=
  if start < 0 then Except.error "Start time cannot be negative"
  else if stop < start then Except.error "End time must be after start time"
  else Except.ok { start := start, stop := stop, priority := priority, label := label }

/-- getRangeDuration (src `TimeRange.ts`). -/
def getRangeDuration (range : TimeRange) : ℚ :=
  range.stop - range.start

/-- getTotalDuration (src `TimeRange.ts`): `reduce((sum, r) => sum + dur, 0)`. -/
def getTotalDuration (ranges : List TimeRange) : ℚ :=
  ranges.foldl (fun sum range => sum + getRangeDuration range) 0

/-- rangesOverlap (src `TimeRange.ts`). -/
def rangesOverlap (a b : TimeRange) : Bool :=
  decide (a.start < b.stop) && decide (b.start < a.stop)

/-- the JavaScript truthiness of `a.label || b.label`: `undefined` and the
empty string are falsy. -/
def jsOrLabel (a b : Option String) : Option String :=
  match a with
  | none => b
  | some s => if s = "" then b else some s

/-- mergeRanges (src `TimeRange.ts`): merge two overlapping or adjacent ranges. -/
def mergeRanges (a b : TimeRange) : TimeRange :=
  { start := min a.start b.start
    stop := max a.stop b.stop
    priority := max a.priority b.priority
    label := jsOrLabel a.label b.label }

/-- EditorialDecision (src `EditorialDecision.ts`). -/
inductive EditorialDecision where
  | keep
  | discard
  | highlight
deriving DecidableEq, Repr

/-- FrameDecision (src `EditorialDecision.ts`). -/
structure FrameDecision where
  timestamp : ℚ
  decision : EditorialDecision
  reason : String
  priority : ℚ
deriving DecidableEq, Repr

/-- CoalescerConfig (src `RangeCoalescer.ts`). -/
structure CoalescerConfig where
  frameWindow : ℚ
  mergeGap : ℚ
  minSegmentDuration : ℚ
deriving DecidableEq, Repr

/-- DEFAULT_COALESCER_CONFIG (src `RangeCoalescer.ts`). -/
def DEFAULT_COALESCER_CONFIG : CoalescerConfig :=
  { frameWindow := 1, mergeGap := 1/2, minSegmentDuration := 1 }

/-- JavaScript `Array.prototype.map` with a callback that may throw:
left-to-right, the first exception aborts. -/
def mapExcept (f : α → Except String β) : List α → Except String (List β)
  | [] => Except.ok []
  | a :: as =>
    match f a with
    | Except.error e => Except.error e
    | Except.ok b =>
      match mapExcept f as with
      | Except.error e => Except.error e
      | Except.ok bs => Except.ok (b :: bs)

/-- comparison used by `sort((a, b) => a.start - b.start)`. -/
def startLE (a b : TimeRange) : Prop := a.start ≤ b.start

/-- comparison used by `sort((a, b) => b.priority - a.priority)`. -/
def priorityGE (a b : TimeRange) : Prop := b.priority ≤ a.priority

/-- comparison used by `sort((a, b) => a.timestamp - b.timestamp)`. -/
def timestampLE (a b : FrameDecision) : Prop := a.timestamp ≤ b.timestamp

instance : DecidableRel startLE := fun a b => inferInstanceAs (Decidable (a.start ≤ b.start))
instance : DecidableRel priorityGE := fun a b => inferInstanceAs (Decidable (b.priority ≤ a.priority))
instance : DecidableRel timestampLE := fun a b => inferInstanceAs (Decidable (a.timestamp ≤ b.timestamp))

instance : IsTotal TimeRange startLE := ⟨fun a b => le_total a.start b.start⟩
instance : IsTrans TimeRange startLE := ⟨fun _ _ _ h h' => le_trans h h'⟩
instance : IsTotal TimeRange priorityGE := ⟨fun a b => le_total b.priority a.priority⟩
instance : IsTrans TimeRange priorityGE := ⟨fun _ _ _ h h' => le_trans h' h⟩
instance : IsTotal FrameDecision timestampLE := ⟨fun a b => le_total a.timestamp b.timestamp⟩
instance : IsTrans FrameDecision timestampLE := ⟨fun _ _ _ h h' => le_trans h h'⟩

/-- the body of the `for` loop of mergeAdjacentRanges (src `RangeCoalescer.ts`):
only the last element of `result` is ever replaced, so the loop is the
accumulator recursion below. -/
def mergeLoop (acc : TimeRange) (rest : List TimeRange) (mergeGap : ℚ) : List TimeRange :=
  match rest with
  | [] => [acc]
  | current :: rs =>
    if current.start ≤ acc.stop + mergeGap then
      mergeLoop (mergeRanges acc current) rs mergeGap
    else
      acc :: mergeLoop current rs mergeGap

/-- mergeAdjacentRanges (src `RangeCoalescer.ts`). -/
def mergeAdjacentRanges (ranges : List TimeRange) (mergeGap : ℚ) : List TimeRange :=
  if ranges.length ≤ 1 then ranges
  else
    match List.insertionSort startLE ranges with
    | [] => []
    | first :: rest => mergeLoop first rest mergeGap

/-- the sorting-and-filtering front end of coalesceToRanges
(src `RangeCoalescer.ts`): sort by timestamp, keep non-discard decisions,
expand each into its provisional range. -/
def provisionalRanges (decisions : List FrameDecision) (config : CoalescerConfig) :
    Except String (List TimeRange) :=
  mapExcept
    (fun d => createTimeRange d.timestamp (d.timestamp + config.frameWindow) d.priority (some d.reason))
    ((List.insertionSort timestampLE decisions).filter
      (fun d => !decide (d.decision = EditorialDecision.discard)))

/-- coalesceToRanges (src `RangeCoalescer.ts`). -/
def coalesceToRanges (decisions : List FrameDecision) (config : CoalescerConfig) :
    Except String (List TimeRange) :=
  if decisions.length = 0 then Except.ok []
  else
    if ((List.insertionSort timestampLE decisions).filter
        (fun d => !decide (d.decision = EditorialDecision.discard))).length = 0 then Except.ok []
    else
      match mapExcept
        (fun d => createTimeRange d.timestamp (d.timestamp + config.frameWindow) d.priority (some d.reason))
        ((List.insertionSort timestampLE decisions).filter
          (fun d => !decide (d.decision = EditorialDecision.discard))) with
      | Except.error e => Except.error e
      | Except.ok initialRanges =>
        Except.ok ((mergeAdjacentRanges initialRanges config.mergeGap).filter
          (fun r => decide (config.minSegmentDuration ≤ r.stop - r.start)))

/-- the `for (const range of byPriority)` loop of limitByDuration
(src `RangeCoalescer.ts`). -/
def limitLoop (ranges : List TimeRange) (totalDuration maxDuration : ℚ) : List TimeRange :=
  match ranges with
  | [] => []
  | range :: rest =>
    let duration := range.stop - range.start
    if totalDuration + duration ≤ maxDuration then
      range :: limitLoop rest (totalDuration + duration) maxDuration
    else
      limitLoop rest totalDuration maxDuration

/-- limitByDuration (src `RangeCoalescer.ts`). -/
def limitByDuration (ranges : List TimeRange) (maxDuration : ℚ) : List TimeRange :=
  let byPriority := List.insertionSort priorityGE ranges
  let selected := limitLoop byPriority 0 maxDuration
  List.insertionSort startLE selected

/-- the value of a JavaScript floating division where the operands are exact
rationals: division by zero yields an infinity or NaN, never a finite value. -/
inductive JsNum where
  | finite (q : ℚ)
  | posInf
  | negInf
  | nan
deriving DecidableEq, Repr

/-- JavaScript `/` on exact rationals. -/
def jsDiv (a b : ℚ) : JsNum :=
  if b = 0 then
    if a = 0 then JsNum.nan else if 0 < a then JsNum.posInf else JsNum.negInf
  else JsNum.finite (a / b)

/-- the record returned by getRangeStats (src `RangeCoalescer.ts`). -/
structure RangeStats where
  segmentCount : ℕ
  totalKeptDuration : ℚ
  totalDiscardedDuration : ℚ
  compressionRatio : JsNum
deriving DecidableEq, Repr

/-- getRangeStats (src `RangeCoalescer.ts`). -/
def getRangeStats (ranges : List TimeRange) (videoDuration : ℚ) : RangeStats :=
  let totalKeptDuration := ranges.foldl (fun sum r => sum + (r.stop - r.start)) 0
  { segmentCount := ranges.length
    totalKeptDuration := totalKeptDuration
    totalDiscardedDuration := videoDuration - totalKeptDuration
    compressionRatio :=
      if 0 < videoDuration then jsDiv videoDuration totalKeptDuration else JsNum.finite 1 }

/-- FrameMetadata (src `FrameMetadata.ts`); the non-serializable thumbnail
payload is irrelevant to the decision logic and omitted. -/
structure FrameMetadata where
  timestamp : ℚ
  aestheticScore : ℚ
  labels : List String
  confidence : ℚ
  frameIndex : ℕ
  videoDuration : ℚ
deriving DecidableEq, Repr

/-- DECISION_PRIORITIES (src `EditorialDecision.ts`). -/
def DECISION_PRIORITIES : EditorialDecision → ℚ
  | .highlight => 10
  | .keep => 5
  | .discard => 0

/-- DISCARD_LABELS (src `EditorialDecision.ts`). -/
def DISCARD_LABELS : List String :=
  ["toilet", "bathroom", "restroom", "urinal", "shower curtain", "bathtub",
   "medicine cabinet"]

/-- BOOST_LABELS (src `EditorialDecision.ts`). -/
def BOOST_LABELS : List String :=
  ["kitchen", "pool", "swimming pool", "patio", "backyard", "living room",
   "dining room", "fireplace", "ocean", "mountain", "garden", "balcony", "terrace"]

/-- JavaScript `String.prototype.toLowerCase` (ASCII-faithful). -/
def jsToLower (s : String) : String :=
  String.mk (s.data.map Char.toLower)

/-- JavaScript `s.includes(sub)`: substring containment. -/
def jsIncludes (s sub : String) : Bool :=
  decide (sub.data <:+: s.data)

/-- shouldDiscard (src `EditorialDecision.ts`). -/
def shouldDiscard (labels : List String) : Bool :=
  labels.any fun label =>
    DISCARD_LABELS.any fun d => jsIncludes (jsToLower label) (jsToLower d)

/-- shouldBoost (src `EditorialDecision.ts`). -/
def shouldBoost (labels : List String) : Bool :=
  labels.any fun label =>
    BOOST_LABELS.any fun b => jsIncludes (jsToLower label) (jsToLower b)

/-- DecisionConfig (src `DecisionMatrix.ts`). -/
structure DecisionConfig where
  aestheticThreshold : ℚ
  confidenceThreshold : ℚ
  realEstateMode : Bool
deriving DecidableEq, Repr

/-- DEFAULT_CONFIG (src `DecisionMatrix.ts`). -/
def DEFAULT_CONFIG : DecisionConfig :=
  { aestheticThreshold := 3/10, confidenceThreshold := 3/10, realEstateMode := true }

/-- JavaScript `x.toFixed(0)`: nearest integer, ties toward the larger value,
exactly `round` on rationals. -/
def jsToFixed0 (q : ℚ) : String :=
  toString (round q)

/-- decideFrame (src `DecisionMatrix.ts`). -/
def decideFrame (frame : FrameMetadata) (config : DecisionConfig) : FrameDecision :=
  let trustedLabels :=
    if config.confidenceThreshold ≤ frame.confidence then frame.labels else []
  if config.realEstateMode && shouldDiscard trustedLabels then
    { timestamp := frame.timestamp
      decision := .discard
      reason := "Contains blacklisted content: " ++ String.intercalate ", " trustedLabels
      priority := 0 }
  else if config.realEstateMode && shouldBoost trustedLabels then
    { timestamp := frame.timestamp
      decision := .highlight
      reason := "Premium content: " ++ String.intercalate ", " trustedLabels
      priority := DECISION_PRIORITIES .highlight + frame.aestheticScore * 2 }
  else if config.aestheticThreshold ≤ frame.aestheticScore then
    { timestamp := frame.timestamp
      decision := .keep
      reason := "High aesthetic score: " ++ jsToFixed0 (frame.aestheticScore * 100) ++ "%"
      priority := DECISION_PRIORITIES .keep + frame.aestheticScore }
  else
    { timestamp := frame.timestamp
      decision := .discard
      reason := "Low aesthetic score: " ++ jsToFixed0 (frame.aestheticScore * 100) ++ "%"
      priority := 0 }

/-- processFrameBatch (src `DecisionMatrix.ts`). -/
def processFrameBatch (frames : List FrameMetadata) (config : DecisionConfig) :
    List FrameDecision :=
  frames.map fun frame => decideFrame frame config

/-! ## Invariant lemmas for the coalescer -/

/-- two ranges separated by strictly more than `gap`. -/
def gapSeparated (gap : ℚ) (a b : TimeRange) : Prop := a.stop + gap < b.start

lemma createTimeRange_ok {s e p : ℚ} {lab : Option String} {r : TimeRange}
    (h : createTimeRange s e p lab = Except.ok r) :
    r = { start := s, stop := e, priority := p, label := lab } ∧ 0 ≤ s ∧ s ≤ e := by
  unfold createTimeRange at h
  split_ifs at h with h1 h2
  · injection h with h
    exact ⟨h.symm, le_of_not_lt h1, le_of_not_lt h2⟩

lemma mapExcept_ok_forall {α β : Type} {f : α → Except String β} :
    ∀ {l : List α} {bs : List β}, mapExcept f l = Except.ok bs →
      ∀ b ∈ bs, ∃ a, f a = Except.ok b := by
  intro l
  induction l with
  | nil =>
    intro bs h b hb
    unfold mapExcept at h
    injection h with h
    subst h
    simp at hb
  | cons a as ih =>
    intro bs h b hb
    unfold mapExcept at h
    cases hfa : f a with
    | error e => rw [hfa] at h; cases h
    | ok b0 =>
      rw [hfa] at h
      cases hrest : mapExcept f as with
      | error e => rw [hrest] at h; cases h
      | ok bs0 =>
        rw [hrest] at h
        injection h with h
        subst h
        rcases List.mem_cons.mp hb with rfl | hmem
        · exact ⟨a, hfa⟩
        · exact ih hrest b hmem

lemma mergeLoop_start_le (gap : ℚ) :
    ∀ (rest : List TimeRange) (acc : TimeRange),
      List.Pairwise startLE (acc :: rest) →
      ∀ r ∈ mergeLoop acc rest gap, acc.start ≤ r.start := by
  intro rest
  induction rest with
  | nil =>
    intro acc _ r hr
    simp only [mergeLoop, List.mem_singleton] at hr
    subst hr
    exact le_refl _
  | cons c rs ih =>
    intro acc hp r hr
    rw [List.pairwise_cons] at hp
    have hacc_c : acc.start ≤ c.start := hp.1 c (List.mem_cons_self _ _)
    simp only [mergeLoop] at hr
    by_cases hc : c.start ≤ acc.stop + gap
    · rw [if_pos hc] at hr
      have hmin : (mergeRanges acc c).start = acc.start := by
        simp [mergeRanges, min_eq_left hacc_c]
      have hpair : List.Pairwise startLE (mergeRanges acc c :: rs) := by
        rw [List.pairwise_cons]
        refine ⟨fun b hb => ?_, (List.pairwise_cons.mp hp.2).2⟩
        show (mergeRanges acc c).start ≤ b.start
        rw [hmin]
        exact hp.1 b (List.mem_cons_of_mem _ hb)
      have := ih (mergeRanges acc c) hpair r hr
      rw [hmin] at this
      exact this
    · rw [if_neg hc] at hr
      rcases List.mem_cons.mp hr with rfl | hmem
      · exact le_refl _
      · exact le_trans hacc_c (ih c hp.2 r hmem)

lemma mergeLoop_props (gap : ℚ) :
    ∀ (rest : List TimeRange) (acc : TimeRange),
      List.Pairwise startLE (acc :: rest) →
      (∀ r ∈ acc :: rest, r.start ≤ r.stop) →
      List.Pairwise (gapSeparated gap) (mergeLoop acc rest gap) ∧
      List.Pairwise startLE (mergeLoop acc rest gap) ∧
      ∀ r ∈ mergeLoop acc rest gap, r.start ≤ r.stop := by
  intro rest
  induction rest with
  | nil =>
    intro acc _ hwf
    simp only [mergeLoop]
    exact ⟨List.pairwise_singleton _ _, List.pairwise_singleton _ _, by
      intro r hr
      rw [List.mem_singleton] at hr
      subst hr
      exact hwf _ (List.mem_cons_self _ _)⟩
  | cons c rs ih =>
    intro acc hp hwf
    rw [List.pairwise_cons] at hp
    have hacc_c : acc.start ≤ c.start := hp.1 c (List.mem_cons_self _ _)
    simp only [mergeLoop]
    by_cases hc : c.start ≤ acc.stop + gap
    · rw [if_pos hc]
      have hmin : (mergeRanges acc c).start = acc.start := by
        simp [mergeRanges, min_eq_left hacc_c]
      have hpair : List.Pairwise startLE (mergeRanges acc c :: rs) := by
        rw [List.pairwise_cons]
        refine ⟨fun b hb => ?_, (List.pairwise_cons.mp hp.2).2⟩
        show (mergeRanges acc c).start ≤ b.start
        rw [hmin]
        exact hp.1 b (List.mem_cons_of_mem _ hb)
      have hwf2 : ∀ r ∈ mergeRanges acc c :: rs, r.start ≤ r.stop := by
        intro r hr
        rcases List.mem_cons.mp hr with rfl | hmem
        · show (mergeRanges acc c).start ≤ (mergeRanges acc c).stop
          rw [hmin]
          show acc.start ≤ max acc.stop c.stop
          exact le_trans (hwf acc (List.mem_cons_self _ _)) (le_max_left _ _)
        · exact hwf r (List.mem_cons_of_mem _ (List.mem_cons_of_mem _ hmem))
      exact ih (mergeRanges acc c) hpair hwf2
    · rw [if_neg hc]
      have hsep : acc.stop + gap < c.start := lt_of_not_le hc
      have htail := ih c hp.2 (fun r hr => hwf r (List.mem_cons_of_mem _ hr))
      have hstarts := mergeLoop_start_le gap rs c hp.2
      refine ⟨?_, ?_, ?_⟩
      · rw [List.pairwise_cons]
        refine ⟨fun b hb => ?_, htail.1⟩
        exact lt_of_lt_of_le hsep (hstarts b hb)
      · rw [List.pairwise_cons]
        refine ⟨fun b hb => ?_, htail.2.1⟩
        show acc.start ≤ b.start
        exact le_trans hacc_c (hstarts b hb)
      · intro r hr
        rcases List.mem_cons.mp hr with rfl | hmem
        · exact hwf _ (List.mem_cons_self _ _)
        · exact htail.2.2 r hmem

lemma mergeAdjacentRanges_props {ranges : List TimeRange} (gap : ℚ)
    (hwf : ∀ r ∈ ranges, r.start ≤ r.stop) :
    List.Pairwise (gapSeparated gap) (mergeAdjacentRanges ranges gap) ∧
    List.Pairwise startLE (mergeAdjacentRanges ranges gap) ∧
    ∀ r ∈ mergeAdjacentRanges ranges gap, r.start ≤ r.stop := by
  unfold mergeAdjacentRanges
  by_cases hlen : ranges.length ≤ 1
  · rw [if_pos hlen]
    match ranges, hwf with
    | [], _ => exact ⟨List.Pairwise.nil, List.Pairwise.nil, by simp⟩
    | [r], hwf =>
      exact ⟨List.pairwise_singleton _ _, List.pairwise_singleton _ _, hwf⟩
  · rw [if_neg hlen]
    have hsort : List.Pairwise startLE (List.insertionSort startLE ranges) :=
      List.sorted_insertionSort startLE ranges
    have hwf2 : ∀ r ∈ List.insertionSort startLE ranges, r.start ≤ r.stop := by
      intro r hr
      exact hwf r ((List.mem_insertionSort startLE).mp hr)
    cases hs : List.insertionSort startLE ranges with
    | nil => exact ⟨List.Pairwise.nil, List.Pairwise.nil, by simp⟩
    | cons first rest =>
      rw [hs] at hsort hwf2
      exact mergeLoop_props gap rest first hsort hwf2

lemma coalesceToRanges_ok_props {ds : List FrameDecision} {cfg : CoalescerConfig}
    {rs : List TimeRange} (h : coalesceToRanges ds cfg = Except.ok rs) :
    List.Pairwise (gapSeparated cfg.mergeGap) rs ∧
    List.Pairwise startLE rs ∧
    (∀ r ∈ rs, r.start ≤ r.stop) ∧
    (∀ r ∈ rs, cfg.minSegmentDuration ≤ r.stop - r.start) := by
  unfold coalesceToRanges at h
  split_ifs at h with h1 h2
  · injection h with h
    subst h
    simp
  · injection h with h
    subst h
    simp
  · rcases hm : mapExcept
        (fun d => createTimeRange d.timestamp (d.timestamp + cfg.frameWindow) d.priority (some d.reason))
        ((List.insertionSort timestampLE ds).filter
          (fun d => !decide (d.decision = EditorialDecision.discard))) with e | initial
    · rw [hm] at h
      cases h
    · rw [hm] at h
      injection h with h
      subst h
      have hwf : ∀ r ∈ initial, r.start ≤ r.stop := by
        intro r hr
        obtain ⟨a, ha⟩ := mapExcept_ok_forall hm r hr
        obtain ⟨rfl, _, hse⟩ := createTimeRange_ok ha
        exact hse
      obtain ⟨p1, p2, p3⟩ := mergeAdjacentRanges_props cfg.mergeGap hwf
      refine ⟨p1.sublist (List.filter_sublist _), p2.sublist (List.filter_sublist _), ?_, ?_⟩
      · intro r hr
        exact p3 r (List.mem_of_mem_filter hr)
      · intro r hr
        have := List.of_mem_filter hr
        simpa using this
/-! ## Limiter lemmas -/

lemma rangesOverlap_comm (a b : TimeRange) : rangesOverlap a b = rangesOverlap b a := by
  simp [rangesOverlap, Bool.and_comm]

lemma limitLoop_sublist : ∀ (l : List TimeRange) (total maxD : ℚ),
    List.Sublist (limitLoop l total maxD) l := by
  intro l
  induction l with
  | nil => intro total maxD; simp [limitLoop]
  | cons r rest ih =>
    intro total maxD
    simp only [limitLoop]
    split_ifs
    · exact (ih _ _).cons₂ r
    · exact (ih _ _).cons r

lemma getTotalDuration_eq (rs : List TimeRange) :
    getTotalDuration rs = (rs.map (fun r => r.stop - r.start)).sum := by
  have aux : ∀ (l : List TimeRange) (init : ℚ),
      l.foldl (fun sum r => sum + getRangeDuration r) init
        = init + (l.map (fun r => r.stop - r.start)).sum := by
    intro l
    induction l with
    | nil => intro init; simp
    | cons a t ih =>
      intro init
      rw [List.foldl_cons, ih, List.map_cons, List.sum_cons]
      unfold getRangeDuration
      ring
  simpa [getTotalDuration] using aux rs 0

lemma limitLoop_budget : ∀ (l : List TimeRange) (total maxD : ℚ), total ≤ maxD →
    total + ((limitLoop l total maxD).map (fun r => r.stop - r.start)).sum ≤ maxD := by
  intro l
  induction l with
  | nil =>
    intro total maxD h
    simpa [limitLoop] using h
  | cons r rest ih =>
    intro total maxD h
    simp only [limitLoop]
    split_ifs with hc
    · have := ih (total + (r.stop - r.start)) maxD hc
      simp only [List.map_cons, List.sum_cons]
      linarith
    · exact ih total maxD h

/-- C1: every `Except.ok` output of coalesceToRanges under `frameWindow ≥ 0` and
`mergeGap ≥ 0` is pairwise non-overlapping, and limitByDuration maps any
pairwise non-overlapping list to a pairwise non-overlapping list. -/
theorem coalescer_limiter_nonoverlap :
    (∀ (ds : List FrameDecision) (cfg : CoalescerConfig) (rs : List TimeRange),
        0 ≤ cfg.frameWindow → 0 ≤ cfg.mergeGap → coalesceToRanges ds cfg = Except.ok rs →
        List.Pairwise (fun a b => rangesOverlap a b = false) rs) ∧
    (∀ (rs : List TimeRange) (maxD : ℚ),
        List.Pairwise (fun a b => rangesOverlap a b = false) rs →
        List.Pairwise (fun a b => rangesOverlap a b = false) (limitByDuration rs maxD)) := by
  constructor
  · intro ds cfg rs _ hgap h
    obtain ⟨hsep, _, _, _⟩ := coalesceToRanges_ok_props h
    refine hsep.imp ?_
    intro a b hab
    have hlt : a.stop < b.start := lt_of_le_of_lt (le_add_of_nonneg_right hgap) hab
    simp only [rangesOverlap, Bool.and_eq_false_iff, decide_eq_false_iff_not, not_lt]
    right
    linarith
  · intro rs maxD hp
    have hsymm : ∀ {a b : TimeRange}, rangesOverlap a b = false → rangesOverlap b a = false := by
      intro a b h
      rw [rangesOverlap_comm]
      exact h
    unfold limitByDuration
    have h1 : List.Pairwise (fun a b => rangesOverlap a b = false)
        (List.insertionSort priorityGE rs) :=
      ((List.perm_insertionSort priorityGE rs).pairwise_iff (fun h => hsymm h)).mpr hp
    have h2 := h1.sublist (limitLoop_sublist _ 0 maxD)
    exact ((List.perm_insertionSort startLE _).pairwise_iff (fun h => hsymm h)).mpr h2

/-- witness for C1 at concrete inputs. -/
theorem coalescer_limiter_nonoverlap_witness :
    List.Pairwise (fun a b => rangesOverlap a b = false)
      [{ start := 0, stop := 1, priority := 5, label := some "a" }] ∧
    List.Pairwise (fun a b => rangesOverlap a b = false)
      (limitByDuration [{ start := 0, stop := 2, priority := 5, label := none },
        { start := 3, stop := 5, priority := 12, label := none }] 2) := by
  constructor
  · refine coalescer_limiter_nonoverlap.1
      [{ timestamp := 0, decision := .keep, reason := "a", priority := 5 }]
      DEFAULT_COALESCER_CONFIG _ (by norm_num [DEFAULT_COALESCER_CONFIG])
      (by norm_num [DEFAULT_COALESCER_CONFIG]) ?_
    norm_num [coalesceToRanges, DEFAULT_COALESCER_CONFIG, List.insertionSort,
      List.orderedInsert, timestampLE, mapExcept, createTimeRange, mergeAdjacentRanges,
      startLE, mergeLoop, mergeRanges, jsOrLabel]
    all_goals simp
  · refine coalescer_limiter_nonoverlap.2 _ 2 ?_
    simp only [List.pairwise_cons, List.mem_singleton, List.Pairwise.nil,
      List.not_mem_nil, false_imp_iff, imp_true_iff, and_true, true_and]
    intro b hb
    subst hb
    norm_num [rangesOverlap]

/-- C4: the total duration of limitByDuration output never exceeds maxDuration
(for well-formed ranges and a non-negative budget). -/
theorem limitByDuration_budget (ranges : List TimeRange) (maxDuration : ℚ)
    (_hwf : ∀ r ∈ ranges, r.start ≤ r.stop) (hmax : 0 ≤ maxDuration) :
    getTotalDuration (limitByDuration ranges maxDuration) ≤ maxDuration := by
  unfold limitByDuration
  rw [getTotalDuration_eq]
  rw [((List.perm_insertionSort startLE
    (limitLoop (List.insertionSort priorityGE ranges) 0 maxDuration)).map _).sum_eq]
  have := limitLoop_budget (List.insertionSort priorityGE ranges) 0 maxDuration hmax
  linarith

/-- witness for C4 at concrete inputs. -/
theorem limitByDuration_budget_witness :
    getTotalDuration (limitByDuration
      [{ start := 0, stop := 2, priority := 5, label := none },
       { start := 3, stop := 5, priority := 12, label := none }] 2) ≤ 2 := by
  refine limitByDuration_budget _ 2 ?_ (by norm_num)
  intro r hr
  rcases List.mem_cons.mp hr with rfl | hr
  · norm_num
  · rcases List.mem_singleton.mp hr with rfl
    norm_num

/-- C5: every range in an `Except.ok` output of coalesceToRanges has duration
at least minSegmentDuration. -/
theorem coalesceToRanges_duration_floor (ds : List FrameDecision) (cfg : CoalescerConfig)
    (rs : List TimeRange) (h : coalesceToRanges ds cfg = Except.ok rs) :
    ∀ r ∈ rs, cfg.minSegmentDuration ≤ r.stop - r.start :=
  (coalesceToRanges_ok_props h).2.2.2

/-- witness for C5 at a concrete input. -/
theorem coalesceToRanges_duration_floor_witness :
    DEFAULT_COALESCER_CONFIG.minSegmentDuration ≤
      ({ start := 0, stop := 1, priority := 5, label := some "a" } : TimeRange).stop
        - ({ start := 0, stop := 1, priority := 5, label := some "a" } : TimeRange).start := by
  have h := coalesceToRanges_duration_floor
    [{ timestamp := 0, decision := .keep, reason := "a", priority := 5 }]
    DEFAULT_COALESCER_CONFIG
    [{ start := 0, stop := 1, priority := 5, label := some "a" }]
    (by
      norm_num [coalesceToRanges, DEFAULT_COALESCER_CONFIG, List.insertionSort,
        List.orderedInsert, timestampLE, mapExcept, createTimeRange, mergeAdjacentRanges,
        startLE, mergeLoop, mergeRanges, jsOrLabel]
      all_goals simp)
  exact h _ (List.mem_singleton.mpr rfl)

/-! ## Statistics (C2) and range construction (C3) -/

/-- C2 counterexample: with videoDuration = 100 and an empty range list (total
retained 0), the code divides 100 by 0 and yields positive infinity — not the
ratio 1 that the claim asserts. -/
theorem getRangeStats_zero_retained_counterexample :
    (getRangeStats [] 100).compressionRatio = JsNum.posInf ∧
    (getRangeStats [] 100).compressionRatio ≠ JsNum.finite 1 := by
  constructor
  · norm_num [getRangeStats, jsDiv]
  · norm_num [getRangeStats, jsDiv]
    decide

/-- C2 amended: compressionRatio is videoDuration / totalKept whenever
videoDuration > 0 and the retained total is non-zero; it is positive infinity
(JavaScript division by zero) when videoDuration > 0 and the retained total is
0; and it is 1 when videoDuration ≤ 0.  With videoDuration = 100 and retained
25 the ratio is 4. -/
theorem getRangeStats_compressionRatio :
    (∀ (ranges : List TimeRange) (videoDuration : ℚ),
      (0 < videoDuration → getTotalDuration ranges ≠ 0 →
        (getRangeStats ranges videoDuration).compressionRatio
          = JsNum.finite (videoDuration / getTotalDuration ranges)) ∧
      (0 < videoDuration → getTotalDuration ranges = 0 →
        (getRangeStats ranges videoDuration).compressionRatio = JsNum.posInf) ∧
      (videoDuration ≤ 0 →
        (getRangeStats ranges videoDuration).compressionRatio = JsNum.finite 1)) ∧
    (getRangeStats [{ start := 0, stop := 25, priority := 5, label := none }] 100).compressionRatio
      = JsNum.finite 4 := by
  have hfold : ∀ ranges : List TimeRange,
      ranges.foldl (fun sum r => sum + (r.stop - r.start)) 0 = getTotalDuration ranges :=
    fun _ => rfl
  have hratio : ∀ (ranges : List TimeRange) (vd : ℚ), 0 < vd →
      (getRangeStats ranges vd).compressionRatio = jsDiv vd (getTotalDuration ranges) := by
    intro ranges vd hvd
    simp only [getRangeStats, hfold, if_pos hvd]
  refine ⟨fun ranges vd => ⟨?_, ?_, ?_⟩, ?_⟩
  · intro hvd hkept
    rw [hratio ranges vd hvd, jsDiv, if_neg hkept]
  · intro hvd hkept
    rw [hratio ranges vd hvd, hkept, jsDiv, if_pos rfl, if_neg (by linarith), if_pos hvd]
  · intro hvd
    simp only [getRangeStats, hfold]
    rw [if_neg (not_lt.mpr hvd)]
  · norm_num [getRangeStats, jsDiv]

/-- witness for C2 (amended) at concrete inputs. -/
theorem getRangeStats_compressionRatio_witness :
    (getRangeStats [{ start := 0, stop := 25, priority := 5, label := none }] 100).compressionRatio
      = JsNum.finite (100 / getTotalDuration [{ start := 0, stop := 25, priority := 5, label := none }]) ∧
    (getRangeStats [] 100).compressionRatio = JsNum.posInf ∧
    (getRangeStats [] 0).compressionRatio = JsNum.finite 1 :=
  ⟨(getRangeStats_compressionRatio.1 _ 100).1 (by norm_num)
      (by norm_num [getTotalDuration, getRangeDuration]),
   (getRangeStats_compressionRatio.1 [] 100).2.1 (by norm_num)
      (by norm_num [getTotalDuration]),
   (getRangeStats_compressionRatio.1 [] 0).2.2 le_rfl⟩

/-- C3 counterexample: construction with end = start succeeds (the code checks
`end < start`, not `end ≤ start`), contradicting the claim that it fails. -/
theorem createTimeRange_zero_width_counterexample :
    createTimeRange 0 0 5 none
      = Except.ok { start := 0, stop := 0, priority := 5, label := none } := by
  norm_num [createTimeRange]

/-- C3 amended: createTimeRange errors exactly when end < start or start < 0
(construction with end = start succeeds), and otherwise returns the range with
the given values unchanged. -/
theorem createTimeRange_validation (s e p : ℚ) (lab : Option String) :
    ((∃ msg, createTimeRange s e p lab = Except.error msg) ↔ (e < s ∨ s < 0)) ∧
    (¬(e < s ∨ s < 0) →
      createTimeRange s e p lab
        = Except.ok { start := s, stop := e, priority := p, label := lab }) := by
  constructor
  · constructor
    · rintro ⟨msg, hmsg⟩
      unfold createTimeRange at hmsg
      split_ifs at hmsg with h1 h2
      · exact Or.inr h1
      · exact Or.inl h2
    · intro h
      rcases h with h | h
      · by_cases h1 : s < 0
        · exact ⟨_, by rw [createTimeRange, if_pos h1]⟩
        · exact ⟨_, by rw [createTimeRange, if_neg h1, if_pos h]⟩
      · exact ⟨_, by rw [createTimeRange, if_pos h]⟩
  · intro h
    push_neg at h
    rw [createTimeRange, if_neg (not_lt.mpr h.2), if_neg (not_lt.mpr h.1)]

/-- witness for C3 (amended) at concrete inputs. -/
theorem createTimeRange_validation_witness :
    createTimeRange 1 3 7 none
      = Except.ok { start := 1, stop := 3, priority := 7, label := none } ∧
    ∃ msg, createTimeRange 3 1 7 none = Except.error msg :=
  ⟨(createTimeRange_validation 1 3 7 none).2 (by norm_num),
   (createTimeRange_validation 3 1 7 none).1.mpr (Or.inl (by norm_num))⟩

/-! ## The limiter refinement (C7) and the merge example (C8) -/

/-- Reference greedy selection written from the specification text: scan once,
accepting a range exactly when the running accepted duration plus its duration
does not exceed the budget; a skipped range is never revisited. -/
def selectGreedy (maxDuration : ℚ) (accepted : List TimeRange) :
    List TimeRange → List TimeRange
  | [] => accepted
  | r :: rest =>
    if getTotalDuration accepted + (r.stop - r.start) ≤ maxDuration then
      selectGreedy maxDuration (accepted ++ [r]) rest
    else
      selectGreedy maxDuration accepted rest

/-- Reference limiter written from the specification text: stably sort by
priority descending, greedily select, then sort the accepted set by start
ascending. -/
def limitByDurationSpec (ranges : List TimeRange) (maxDuration : ℚ) : List TimeRange :=
  List.insertionSort startLE
    (selectGreedy maxDuration [] (List.insertionSort priorityGE ranges))

lemma getTotalDuration_append_singleton (l : List TimeRange) (r : TimeRange) :
    getTotalDuration (l ++ [r]) = getTotalDuration l + (r.stop - r.start) := by
  rw [getTotalDuration_eq, getTotalDuration_eq, List.map_append, List.sum_append]
  simp

lemma selectGreedy_eq_limitLoop (maxDuration : ℚ) :
    ∀ (l acc : List TimeRange),
      selectGreedy maxDuration acc l = acc ++ limitLoop l (getTotalDuration acc) maxDuration := by
  intro l
  induction l with
  | nil => intro acc; simp [selectGreedy, limitLoop]
  | cons r rest ih =>
    intro acc
    simp only [selectGreedy, limitLoop]
    split_ifs with hc
    · rw [ih (acc ++ [r]), getTotalDuration_append_singleton]
      simp [List.append_assoc]
    · exact ih acc

/-- C7: limitByDuration coincides with the reference greedy procedure of the
specification, and on A = [0,2) priority 5, B = [3,5) priority 12 with
maxDuration 2 it returns exactly [B]. -/
theorem limitByDuration_eq_spec :
    (∀ (ranges : List TimeRange) (maxDuration : ℚ),
      limitByDuration ranges maxDuration = limitByDurationSpec ranges maxDuration) ∧
    limitByDuration [{ start := 0, stop := 2, priority := 5, label := none },
        { start := 3, stop := 5, priority := 12, label := none }] 2 =
      [{ start := 3, stop := 5, priority := 12, label := none }] := by
  constructor
  · intro ranges maxDuration
    unfold limitByDuration limitByDurationSpec
    rw [selectGreedy_eq_limitLoop]
    rfl
  · norm_num [limitByDuration, List.insertionSort, List.orderedInsert, priorityGE,
      startLE, limitLoop]

/-- C8: the five verdicts keep@0 (priority 5), keep@1 (priority 5), discard@2,
highlight@3 (priority 12), keep@4 (priority 5.2) with frameWindow 1,
mergeGap 0.5, minSegmentDuration 1 coalesce to exactly [0,2) priority 5 and
[3,5) priority 12. -/
theorem coalesceToRanges_merge_example :
    coalesceToRanges
      [{ timestamp := 0, decision := .keep, reason := "a", priority := 5 },
       { timestamp := 1, decision := .keep, reason := "b", priority := 5 },
       { timestamp := 2, decision := .discard, reason := "c", priority := 0 },
       { timestamp := 3, decision := .highlight, reason := "d", priority := 12 },
       { timestamp := 4, decision := .keep, reason := "e", priority := 5.2 }]
      { frameWindow := 1, mergeGap := 0.5, minSegmentDuration := 1 } =
    Except.ok [{ start := 0, stop := 2, priority := 5, label := some "a" },
               { start := 3, stop := 5, priority := 12, label := some "d" }] := by
  norm_num [coalesceToRanges, List.insertionSort, List.orderedInsert, timestampLE,
    mapExcept, createTimeRange, mergeAdjacentRanges, startLE, mergeLoop, mergeRanges,
    jsOrLabel]
  all_goals simp

/-! ## The decision engine rules (C6) -/

/-- matching of a label list against a fixed vocabulary: some label
case-insensitively contains some vocabulary entry. -/
def matchesAny (vocab labels : List String) : Prop :=
  ∃ l ∈ labels, ∃ v ∈ vocab, jsIncludes (jsToLower l) (jsToLower v) = true

lemma shouldDiscard_iff (labels : List String) :
    shouldDiscard labels = true ↔ matchesAny DISCARD_LABELS labels := by
  simp [shouldDiscard, matchesAny, List.any_eq_true]

lemma shouldBoost_iff (labels : List String) :
    shouldBoost labels = true ↔ matchesAny BOOST_LABELS labels := by
  simp [shouldBoost, matchesAny, List.any_eq_true]

/-- C6: decideFrame copies the frame's timestamp and follows the first
matching rule over the trusted labels (the frame's labels when confidence
reaches the threshold, else none): blacklist discard with priority 0, boost
highlight with priority 10 + aestheticScore·2, aesthetic keep with priority
5 + aestheticScore, default discard with priority 0. -/
theorem decideFrame_rules (frame : FrameMetadata) (config : DecisionConfig)
    (trusted : List String)
    (ht : trusted = if config.confidenceThreshold ≤ frame.confidence then frame.labels else []) :
    (decideFrame frame config).timestamp = frame.timestamp ∧
    (config.realEstateMode = true → matchesAny DISCARD_LABELS trusted →
      (decideFrame frame config).decision = EditorialDecision.discard ∧
      (decideFrame frame config).priority = 0) ∧
    (config.realEstateMode = true → ¬ matchesAny DISCARD_LABELS trusted →
      matchesAny BOOST_LABELS trusted →
      (decideFrame frame config).decision = EditorialDecision.highlight ∧
      (decideFrame frame config).priority = 10 + frame.aestheticScore * 2) ∧
    (¬ (config.realEstateMode = true ∧ matchesAny DISCARD_LABELS trusted) →
      ¬ (config.realEstateMode = true ∧ matchesAny BOOST_LABELS trusted) →
      config.aestheticThreshold ≤ frame.aestheticScore →
      (decideFrame frame config).decision = EditorialDecision.keep ∧
      (decideFrame frame config).priority = 5 + frame.aestheticScore) ∧
    (¬ (config.realEstateMode = true ∧ matchesAny DISCARD_LABELS trusted) →
      ¬ (config.realEstateMode = true ∧ matchesAny BOOST_LABELS trusted) →
      frame.aestheticScore < config.aestheticThreshold →
      (decideFrame frame config).decision = EditorialDecision.discard ∧
      (decideFrame frame config).priority = 0) := by
  have hand : ∀ ls : List String,
      (config.realEstateMode && shouldDiscard ls) = true ↔
        (config.realEstateMode = true ∧ matchesAny DISCARD_LABELS ls) := by
    intro ls
    rw [Bool.and_eq_true, shouldDiscard_iff]
  have hbnd : ∀ ls : List String,
      (config.realEstateMode && shouldBoost ls) = true ↔
        (config.realEstateMode = true ∧ matchesAny BOOST_LABELS ls) := by
    intro ls
    rw [Bool.and_eq_true, shouldBoost_iff]
  simp only [decideFrame]
  rw [← ht]
  split_ifs with h1 h2 h3
  · refine ⟨rfl, fun _ _ => ⟨rfl, rfl⟩, ?_, ?_, ?_⟩
    · intro _ hnd _
      exact absurd ((hand _).mp h1).2 hnd
    · intro hn _ _
      exact absurd ((hand _).mp h1) hn
    · intro hn _ _
      exact absurd ((hand _).mp h1) hn
  · refine ⟨rfl, ?_, fun _ _ _ => ⟨rfl, rfl⟩, ?_, ?_⟩
    · intro hre hd
      exact absurd ((hand _).mpr ⟨hre, hd⟩) h1
    · intro _ hn _
      exact absurd ((hbnd _).mp h2) hn
    · intro _ hn _
      exact absurd ((hbnd _).mp h2) hn
  · refine ⟨rfl, ?_, ?_, fun _ _ _ => ⟨rfl, rfl⟩, ?_⟩
    · intro hre hd
      exact absurd ((hand _).mpr ⟨hre, hd⟩) h1
    · intro hre _ hb
      exact absurd ((hbnd _).mpr ⟨hre, hb⟩) h2
    · intro _ _ hlt
      exact absurd h3 (not_le.mpr hlt)
  · refine ⟨rfl, ?_, ?_, ?_, fun _ _ _ => ⟨rfl, rfl⟩⟩
    · intro hre hd
      exact absurd ((hand _).mpr ⟨hre, hd⟩) h1
    · intro hre _ hb
      exact absurd ((hbnd _).mpr ⟨hre, hb⟩) h2
    · intro _ _ hge
      exact absurd hge h3

/-- witness for C6 at a concrete frame whose confidence is below the threshold
(so the trusted label set is empty) and whose aesthetic score passes. -/
theorem decideFrame_rules_witness :
    (decideFrame
      { timestamp := 7, aestheticScore := 4/5, labels := ["Kitchen island"],
        confidence := 0, frameIndex := 0, videoDuration := 60 }
      DEFAULT_CONFIG).decision = EditorialDecision.keep ∧
    (decideFrame
      { timestamp := 7, aestheticScore := 4/5, labels := ["Kitchen island"],
        confidence := 0, frameIndex := 0, videoDuration := 60 }
      DEFAULT_CONFIG).priority = 5 + 4/5 := by
  have h := decideFrame_rules
    { timestamp := 7, aestheticScore := 4/5, labels := ["Kitchen island"],
      confidence := 0, frameIndex := 0, videoDuration := 60 }
    DEFAULT_CONFIG [] (by norm_num [DEFAULT_CONFIG])
  exact h.2.2.2.1 (by simp [matchesAny]) (by simp [matchesAny])
    (by norm_num [DEFAULT_CONFIG])

/-! ## Idempotence of coalescing (C9) -/

lemma mergeLoop_of_separated (gap : ℚ) :
    ∀ (rest : List TimeRange) (acc : TimeRange),
      List.Pairwise (gapSeparated gap) (acc :: rest) →
      mergeLoop acc rest gap = acc :: rest := by
  intro rest
  induction rest with
  | nil => intro acc _; rfl
  | cons c rs ih =>
    intro acc hp
    rw [List.pairwise_cons] at hp
    have hsep : gapSeparated gap acc c := hp.1 c (List.mem_cons_self _ _)
    simp only [mergeLoop]
    rw [if_neg (not_le.mpr hsep), ih c hp.2]

lemma mergeAdjacentRanges_of_separated {rs : List TimeRange} {gap : ℚ}
    (hsor : List.Pairwise startLE rs) (hsep : List.Pairwise (gapSeparated gap) rs) :
    mergeAdjacentRanges rs gap = rs := by
  unfold mergeAdjacentRanges
  by_cases hlen : rs.length ≤ 1
  · rw [if_pos hlen]
  · rw [if_neg hlen]
    have hid : List.insertionSort startLE rs = rs := List.Sorted.insertionSort_eq hsor
    rw [hid]
    cases rs with
    | nil => rfl
    | cons first rest => exact mergeLoop_of_separated gap rest first hsep

/-- C9: for mergeGap ≥ 0 an `Except.ok` output of coalesceToRanges admits no
further merging: consecutive ranges (the list is in start order) are separated
by strictly more than mergeGap, re-merging and re-filtering the output leaves
it unchanged, and re-running coalesceToRanges on any verdict set whose
provisional ranges exactly reconstruct the output returns the same ranges. -/
theorem coalesceToRanges_idempotent (ds : List FrameDecision) (cfg : CoalescerConfig)
    (rs : List TimeRange) (_hgap : 0 ≤ cfg.mergeGap)
    (h : coalesceToRanges ds cfg = Except.ok rs) :
    List.Pairwise (fun a b => a.stop + cfg.mergeGap < b.start) rs ∧
    mergeAdjacentRanges rs cfg.mergeGap = rs ∧
    ∀ ds2, provisionalRanges ds2 cfg = Except.ok rs →
      coalesceToRanges ds2 cfg = Except.ok rs := by
  obtain ⟨hsep, hsor, _hwf, hmin⟩ := coalesceToRanges_ok_props h
  have hmerge : mergeAdjacentRanges rs cfg.mergeGap = rs :=
    mergeAdjacentRanges_of_separated hsor hsep
  have hfilter : rs.filter (fun r => decide (cfg.minSegmentDuration ≤ r.stop - r.start)) = rs := by
    apply List.filter_eq_self.mpr
    intro r hr
    exact decide_eq_true (hmin r hr)
  refine ⟨hsep, hmerge, ?_⟩
  intro ds2 hprov
  unfold provisionalRanges at hprov
  unfold coalesceToRanges
  by_cases hd2 : ds2.length = 0
  · rw [if_pos hd2]
    obtain rfl := List.length_eq_zero.mp hd2
    simp only [List.insertionSort, List.filter_nil, mapExcept] at hprov
    injection hprov with hprov
    rw [hprov]
  · rw [if_neg hd2]
    by_cases hk : ((List.insertionSort timestampLE ds2).filter
        (fun d => !decide (d.decision = EditorialDecision.discard))).length = 0
    · rw [if_pos hk]
      rw [List.length_eq_zero.mp hk] at hprov
      simp only [mapExcept] at hprov
      injection hprov with hprov
      rw [hprov]
    · rw [if_neg hk, hprov]
      show Except.ok ((mergeAdjacentRanges rs cfg.mergeGap).filter
          (fun r => decide (cfg.minSegmentDuration ≤ r.stop - r.start))) = Except.ok rs
      rw [hmerge, hfilter]

/-- witness for C9 at a concrete input (the single kept verdict at 0). -/
theorem coalesceToRanges_idempotent_witness :
    List.Pairwise (fun a b : TimeRange => a.stop + DEFAULT_COALESCER_CONFIG.mergeGap < b.start)
      [{ start := 0, stop := 1, priority := 5, label := some "a" }] ∧
    mergeAdjacentRanges [{ start := 0, stop := 1, priority := 5, label := some "a" }]
      DEFAULT_COALESCER_CONFIG.mergeGap
      = [{ start := 0, stop := 1, priority := 5, label := some "a" }] ∧
    coalesceToRanges [{ timestamp := 0, decision := .keep, reason := "a", priority := 5 }]
      DEFAULT_COALESCER_CONFIG
      = Except.ok [{ start := 0, stop := 1, priority := 5, label := some "a" }] := by
  have h := coalesceToRanges_idempotent
    [{ timestamp := 0, decision := .keep, reason := "a", priority := 5 }]
    DEFAULT_COALESCER_CONFIG
    [{ start := 0, stop := 1, priority := 5, label := some "a" }]
    (by norm_num [DEFAULT_COALESCER_CONFIG])
    (by
      norm_num [coalesceToRanges, DEFAULT_COALESCER_CONFIG, List.insertionSort,
        List.orderedInsert, timestampLE, mapExcept, createTimeRange,
        mergeAdjacentRanges, startLE, mergeLoop, mergeRanges, jsOrLabel]
      all_goals simp)
  refine ⟨h.1, h.2.1, h.2.2 _ ?_⟩
  norm_num [provisionalRanges, DEFAULT_COALESCER_CONFIG, List.insertionSort,
    List.orderedInsert, timestampLE, mapExcept, createTimeRange]

/-! ## Boundary noninterference (C10): the segment boundaries of the coalescer
output depend only on each decision's timestamp and on whether it is a
discard.  A ghost pipeline over observations `(timestamp, isDiscard)` and
bounds `(start, stop)` mirrors every stage. -/

/-- the boundary-relevant observation of a decision. -/
def decisionObs (d : FrameDecision) : ℚ × Bool :=
  (d.timestamp, decide (d.decision = EditorialDecision.discard))

/-- the boundary of a range. -/
def rangeBounds (r : TimeRange) : ℚ × ℚ := (r.start, r.stop)

/-- first-component order on pairs, mirroring the timestamp / start sorts. -/
def fstLE {β : Type} (a b : ℚ × β) : Prop := a.1 ≤ b.1

instance {β : Type} : DecidableRel (@fstLE β) :=
  fun a b => inferInstanceAs (Decidable (a.1 ≤ b.1))

/-- ghost of createTimeRange on bounds. -/
def ghostCreate (s e : ℚ) : Except String (ℚ × ℚ) :=
  if s < 0 then Except.error "Start time cannot be negative"
  else if e < s then Except.error "End time must be after start time"
  else Except.ok (s, e)

/-- ghost of mergeLoop on bounds. -/
def ghostMergeLoop (acc : ℚ × ℚ) (rest : List (ℚ × ℚ)) (gap : ℚ) : List (ℚ × ℚ) :=
  match rest with
  | [] => [acc]
  | c :: rs =>
    if c.1 ≤ acc.2 + gap then ghostMergeLoop (min acc.1 c.1, max acc.2 c.2) rs gap
    else acc :: ghostMergeLoop c rs gap

/-- ghost of mergeAdjacentRanges on bounds. -/
def ghostMerge (l : List (ℚ × ℚ)) (gap : ℚ) : List (ℚ × ℚ) :=
  if l.length ≤ 1 then l
  else
    match List.insertionSort fstLE l with
    | [] => []
    | first :: rest => ghostMergeLoop first rest gap

/-- ghost of coalesceToRanges on observations. -/
def ghostCoalesce (obs : List (ℚ × Bool)) (cfg : CoalescerConfig) :
    Except String (List (ℚ × ℚ)) :=
  if obs.length = 0 then Except.ok []
  else
    if ((List.insertionSort fstLE obs).filter (fun p => !p.2)).length = 0 then Except.ok []
    else
      match mapExcept (fun p => ghostCreate p.1 (p.1 + cfg.frameWindow))
        ((List.insertionSort fstLE obs).filter (fun p => !p.2)) with
      | Except.error e => Except.error e
      | Except.ok initial =>
        Except.ok ((ghostMerge initial cfg.mergeGap).filter
          (fun b => decide (cfg.minSegmentDuration ≤ b.2 - b.1)))

lemma map_filter_eq {α β : Type} (f : α → β) (p : β → Bool) (q : α → Bool)
    (hq : ∀ a, q a = p (f a)) :
    ∀ l : List α, (l.filter q).map f = (l.map f).filter p := by
  intro l
  induction l with
  | nil => simp
  | cons a as ih =>
    rw [List.map_cons, List.filter_cons, List.filter_cons, ← hq a]
    by_cases ha : q a = true
    · rw [if_pos ha, if_pos ha, List.map_cons, ih]
    · rw [if_neg ha, if_neg ha, ih]

lemma mapExcept_map {α β γ δ : Type} (f : α → Except String β) (g : γ → Except String δ)
    (u : α → γ) (v : β → δ) (hcomm : ∀ a, Except.map v (f a) = g (u a)) :
    ∀ l : List α, Except.map (List.map v) (mapExcept f l) = mapExcept g (l.map u) := by
  intro l
  induction l with
  | nil => rfl
  | cons a as ih =>
    rw [List.map_cons]
    show Except.map (List.map v) (mapExcept f (a :: as)) = mapExcept g (u a :: as.map u)
    unfold mapExcept
    cases hfa : f a with
    | error e =>
      have hg : g (u a) = Except.error e := by rw [← hcomm a, hfa]; rfl
      rw [hg]
      rfl
    | ok b =>
      have hg : g (u a) = Except.ok (v b) := by rw [← hcomm a, hfa]; rfl
      rw [hg]
      cases hrest : mapExcept f as with
      | error e =>
        have := ih
        rw [hrest] at this
        rw [← this]
        rfl
      | ok bs =>
        have := ih
        rw [hrest] at this
        rw [← this]
        rfl

lemma insertionSort_decisionObs (ds : List FrameDecision) :
    (List.insertionSort timestampLE ds).map decisionObs
      = List.insertionSort fstLE (ds.map decisionObs) :=
  List.map_insertionSort timestampLE fstLE decisionObs ds (fun _ _ _ _ => Iff.rfl)

lemma insertionSort_rangeBounds (l : List TimeRange) :
    (List.insertionSort startLE l).map rangeBounds
      = List.insertionSort fstLE (l.map rangeBounds) :=
  List.map_insertionSort startLE fstLE rangeBounds l (fun _ _ _ _ => Iff.rfl)

lemma mergeLoop_bounds (gap : ℚ) :
    ∀ (rest : List TimeRange) (acc : TimeRange),
      (mergeLoop acc rest gap).map rangeBounds
        = ghostMergeLoop (rangeBounds acc) (rest.map rangeBounds) gap := by
  intro rest
  induction rest with
  | nil => intro acc; rfl
  | cons c rs ih =>
    intro acc
    rw [List.map_cons]
    show (mergeLoop acc (c :: rs) gap).map rangeBounds
      = ghostMergeLoop (rangeBounds acc) (rangeBounds c :: rs.map rangeBounds) gap
    simp only [mergeLoop, ghostMergeLoop, rangeBounds]
    split_ifs with hc
    · have := ih (mergeRanges acc c)
      simp only [rangeBounds] at this
      exact this
    · rw [List.map_cons]
      have := ih c
      simp only [rangeBounds] at this
      rw [this]
      rfl

lemma mergeAdjacentRanges_bounds (gap : ℚ) (l : List TimeRange) :
    (mergeAdjacentRanges l gap).map rangeBounds = ghostMerge (l.map rangeBounds) gap := by
  unfold mergeAdjacentRanges ghostMerge
  rw [List.length_map]
  by_cases hlen : l.length ≤ 1
  · rw [if_pos hlen, if_pos hlen]
  · rw [if_neg hlen, if_neg hlen, ← insertionSort_rangeBounds]
    cases hs : List.insertionSort startLE l with
    | nil => rfl
    | cons first rest =>
      rw [List.map_cons]
      exact mergeLoop_bounds gap rest first

lemma coalesceToRanges_bounds (ds : List FrameDecision) (cfg : CoalescerConfig) :
    Except.map (List.map rangeBounds) (coalesceToRanges ds cfg)
      = ghostCoalesce (ds.map decisionObs) cfg := by
  unfold coalesceToRanges ghostCoalesce
  rw [List.length_map]
  by_cases h0 : ds.length = 0
  · rw [if_pos h0, if_pos h0]
    rfl
  · rw [if_neg h0, if_neg h0]
    have hfil : ((List.insertionSort timestampLE ds).filter
          (fun d => !decide (d.decision = EditorialDecision.discard))).map decisionObs
        = (List.insertionSort fstLE (ds.map decisionObs)).filter (fun p => !p.2) := by
      rw [← insertionSort_decisionObs]
      exact map_filter_eq decisionObs (fun p => !p.2)
        (fun d => !decide (d.decision = EditorialDecision.discard)) (fun _ => rfl) _
    have hlen2 : ((List.insertionSort timestampLE ds).filter
          (fun d => !decide (d.decision = EditorialDecision.discard))).length
        = ((List.insertionSort fstLE (ds.map decisionObs)).filter (fun p => !p.2)).length := by
      rw [← hfil, List.length_map]
    by_cases hk : ((List.insertionSort timestampLE ds).filter
        (fun d => !decide (d.decision = EditorialDecision.discard))).length = 0
    · rw [if_pos hk, if_pos (by rw [← hlen2]; exact hk)]
      rfl
    · rw [if_neg hk, if_neg (by rw [← hlen2]; exact hk)]
      have hcomm : ∀ d : FrameDecision,
          Except.map rangeBounds
            (createTimeRange d.timestamp (d.timestamp + cfg.frameWindow) d.priority (some d.reason))
          = ghostCreate (decisionObs d).1 ((decisionObs d).1 + cfg.frameWindow) := by
        intro d
        unfold createTimeRange ghostCreate decisionObs
        split_ifs <;> rfl
      have hmapx := mapExcept_map
        (fun d => createTimeRange d.timestamp (d.timestamp + cfg.frameWindow) d.priority (some d.reason))
        (fun p => ghostCreate p.1 (p.1 + cfg.frameWindow))
        decisionObs rangeBounds hcomm
        ((List.insertionSort timestampLE ds).filter
          (fun d => !decide (d.decision = EditorialDecision.discard)))
      rw [hfil] at hmapx
      cases hm : mapExcept
          (fun d => createTimeRange d.timestamp (d.timestamp + cfg.frameWindow) d.priority (some d.reason))
          ((List.insertionSort timestampLE ds).filter
            (fun d => !decide (d.decision = EditorialDecision.discard))) with
      | error e =>
        rw [hm] at hmapx
        rw [← hmapx]
        rfl
      | ok initial =>
        rw [hm] at hmapx
        rw [← hmapx]
        show Except.ok
            (((mergeAdjacentRanges initial cfg.mergeGap).filter
              (fun r => decide (cfg.minSegmentDuration ≤ r.stop - r.start))).map rangeBounds)
          = Except.ok ((ghostMerge (initial.map rangeBounds) cfg.mergeGap).filter
              (fun b => decide (cfg.minSegmentDuration ≤ b.2 - b.1)))
        rw [← mergeAdjacentRanges_bounds]
        rw [map_filter_eq rangeBounds
          (fun b => decide (cfg.minSegmentDuration ≤ b.2 - b.1))
          (fun r => decide (cfg.minSegmentDuration ≤ r.stop - r.start)) (fun _ => rfl)]

/-- C10: two decision lists of equal length agreeing pointwise on timestamp
and on discard-ness produce coalescer outputs of the same length with the
same start and end boundaries range-for-range; priorities and reason strings
never influence the boundaries. -/
theorem coalesceToRanges_boundary_noninterference
    (ds1 ds2 : List FrameDecision) (cfg : CoalescerConfig)
    (hlen : ds1.length = ds2.length)
    (hagree : ∀ i (hi1 : i < ds1.length) (hi2 : i < ds2.length),
      (ds1.get ⟨i, hi1⟩).timestamp = (ds2.get ⟨i, hi2⟩).timestamp ∧
      ((ds1.get ⟨i, hi1⟩).decision = EditorialDecision.discard ↔
        (ds2.get ⟨i, hi2⟩).decision = EditorialDecision.discard))
    (rs1 rs2 : List TimeRange)
    (h1 : coalesceToRanges ds1 cfg = Except.ok rs1)
    (h2 : coalesceToRanges ds2 cfg = Except.ok rs2) :
    rs1.length = rs2.length ∧ rs1.map rangeBounds = rs2.map rangeBounds := by
  have hobs : ds1.map decisionObs = ds2.map decisionObs := by
    apply List.ext_get (by simp [hlen])
    intro i hi1 hi2
    rw [List.get_map, List.get_map]
    obtain ⟨hts, hdec⟩ := hagree i (by simpa using hi1) (by simpa using hi2)
    unfold decisionObs
    rw [hts, decide_eq_decide.mpr hdec]
  have hc1 := coalesceToRanges_bounds ds1 cfg
  have hc2 := coalesceToRanges_bounds ds2 cfg
  rw [hobs, h1] at hc1
  rw [h2] at hc2
  have hib : (Except.ok (rs1.map rangeBounds) : Except String (List (ℚ × ℚ)))
      = Except.ok (rs2.map rangeBounds) := by
    have e1 : Except.map (List.map rangeBounds) (Except.ok rs1 : Except String (List TimeRange))
        = Except.ok (rs1.map rangeBounds) := rfl
    have e2 : Except.map (List.map rangeBounds) (Except.ok rs2 : Except String (List TimeRange))
        = Except.ok (rs2.map rangeBounds) := rfl
    rw [e1] at hc1
    rw [e2] at hc2
    rw [hc1, hc2]
  injection hib with hbounds
  refine ⟨?_, hbounds⟩
  have := congrArg List.length hbounds
  simpa using this

/-- witness for C10: two singleton decision lists agreeing on timestamp and
discard-ness but with different decisions, priorities and reasons yield the
same boundaries. -/
theorem coalesceToRanges_boundary_noninterference_witness :
    ([({ start := 0, stop := 1, priority := 5, label := some "x" } : TimeRange)]).length
      = ([({ start := 0, stop := 1, priority := 9, label := some "y" } : TimeRange)]).length ∧
    ([({ start := 0, stop := 1, priority := 5, label := some "x" } : TimeRange)]).map rangeBounds
      = ([({ start := 0, stop := 1, priority := 9, label := some "y" } : TimeRange)]).map rangeBounds := by
  refine coalesceToRanges_boundary_noninterference
    [{ timestamp := 0, decision := .keep, reason := "x", priority := 5 }]
    [{ timestamp := 0, decision := .highlight, reason := "y", priority := 9 }]
    DEFAULT_COALESCER_CONFIG (by simp) ?_ _ _ ?_ ?_
  · intro i hi1 hi2
    simp only [List.length_singleton] at hi1
    have hi0 : i = 0 := by omega
    subst hi0
    exact ⟨rfl, by simp⟩
  · norm_num [coalesceToRanges, DEFAULT_COALESCER_CONFIG, List.insertionSort,
      List.orderedInsert, timestampLE, mapExcept, createTimeRange, mergeAdjacentRanges,
      startLE, mergeLoop, mergeRanges, jsOrLabel]
    all_goals simp
  · norm_num [coalesceToRanges, DEFAULT_COALESCER_CONFIG, List.insertionSort,
      List.orderedInsert, timestampLE, mapExcept, createTimeRange, mergeAdjacentRanges,
      startLE, mergeLoop, mergeRanges, jsOrLabel]
    all_goals simp
